import Mathlib

/-!
Verification of the blob attribute codec of libubox (`blob.h`).

The embedding models:

* a `struct blob_attr` as its 4-byte header (read as a big-endian `uint32`,
  i.e. the value `be32_to_cpu(attr->id_len)`) together with the bytes that
  follow the header in memory;
* raw memory as a `List Nat` of bytes, with out-of-range reads returning 0;
* the header accessors `blob_id`, `blob_len`, `blob_raw_len`, `blob_pad_len`,
  `blob_set_raw_len` exactly as `blob.h` computes them, with C unsigned
  arithmetic rendered as `Nat` arithmetic modulo `2^32`;
* the iteration macros `__blob_for_each_attr` / `blob_for_each_attr` as a
  recursive function returning the list of yielded attribute offsets.

All bit operations (`&&&`, `|||`, `<<<`, `>>>`) are the source's; bridge
lemmas relate them to division/modulus arithmetic for the proofs.
-/

/-- Models `struct blob_attr`: `id_len` is the 4-byte header read as a
big-endian `uint32` (the value of `be32_to_cpu(attr->id_len)`, on any host
byte order), and `data` is the byte sequence following the header in memory
(`attr->data`, a flexible array member: reads beyond the declared payload are
possible in C, so `data` is not truncated to the payload length). -/
structure BlobAttr where
  id_len : Nat
  data : List Nat
  deriving DecidableEq

/-- `sizeof(struct blob_attr)`: a packed struct holding one `uint32_t`
followed by a flexible array member, hence 4 bytes. -/
def sizeof_blob_attr : Nat := 4

/-- blob.h:124-128, `blob_data`: returns the data pointer of an attribute. -/
def blob_data (attr : BlobAttr) : List Nat := attr.data

/-- blob.h:133-138, `blob_id`:
`(be32_to_cpu(attr->id_len) & BLOB_ATTR_ID_MASK) >> BLOB_ATTR_ID_SHIFT`
with `BLOB_ATTR_ID_MASK = 0xff000000` and `BLOB_ATTR_ID_SHIFT = 24`. -/
def blob_id (attr : BlobAttr) : Nat :=
  (attr.id_len &&& 0xff000000) >>> 24

/-- blob.h:143-147, `blob_len`:
`(be32_to_cpu(attr->id_len) & BLOB_ATTR_LEN_MASK) - sizeof(struct blob_attr)`
with `BLOB_ATTR_LEN_MASK = 0x00ffffff`.  The subtraction is C unsigned
arithmetic truncated to the 32-bit `unsigned int` return type, i.e. it wraps
modulo `2^32` when the masked length field is below 4; subtracting 4 modulo
`2^32` is adding `2^32 - 4` modulo `2^32`. -/
def blob_len (attr : BlobAttr) : Nat :=
  ((attr.id_len &&& 0x00ffffff) + (2 ^ 32 - sizeof_blob_attr)) % 2 ^ 32

/-- blob.h:152-156, `blob_raw_len`: `blob_len(attr) + sizeof(struct blob_attr)`,
again truncated to the 32-bit unsigned return type. -/
def blob_raw_len (attr : BlobAttr) : Nat :=
  (blob_len attr + sizeof_blob_attr) % 2 ^ 32

/-- blob.h:161-167, `blob_pad_len`:
`len = blob_raw_len(attr); len = (len + BLOB_ATTR_ALIGN - 1) & ~(BLOB_ATTR_ALIGN - 1)`
with `BLOB_ATTR_ALIGN = 4`.  On the 32-bit `int` used by the source,
`~(BLOB_ATTR_ALIGN - 1) = ~3` has bit pattern `0xfffffffc`; `blob_raw_len`
never exceeds `0x00ffffff`, so the `int` arithmetic is exact. -/
def blob_pad_len (attr : BlobAttr) : Nat :=
  (blob_raw_len attr + 3) &&& 0xfffffffc

/-- blob.h:169-176, `blob_set_raw_len`:
`id = blob_id(attr); len &= BLOB_ATTR_LEN_MASK;
 len |= (id << BLOB_ATTR_ID_SHIFT) & BLOB_ATTR_ID_MASK;
 attr->id_len = cpu_to_be32(len)`.
Since `id_len` models the big-endian-decoded header value, storing
`cpu_to_be32(len)` makes the new decoded header value equal to `len`. -/
def blob_set_raw_len (attr : BlobAttr) (len : Nat) : BlobAttr :=
  { attr with
    id_len := (len &&& 0x00ffffff) ||| ((blob_id attr <<< 24) &&& 0xff000000) }

section BitwiseBridges

/-- Right shift distributes over bitwise and. -/
theorem and_shiftRight_distrib (x y k : Nat) :
    (x &&& y) >>> k = (x >>> k) &&& (y >>> k) := by
  apply Nat.eq_of_testBit_eq
  intro i
  simp [Nat.testBit_shiftRight, Nat.testBit_and]

/-- Right shift distributes over bitwise or. -/
theorem lor_shiftRight_distrib (x y k : Nat) :
    (x ||| y) >>> k = (x >>> k) ||| (y >>> k) := by
  apply Nat.eq_of_testBit_eq
  intro i
  simp [Nat.testBit_shiftRight, Nat.testBit_lor]

/-- Bitwise and of two values shifted left by the same amount. -/
theorem shiftLeft_and_shiftLeft (x y k : Nat) :
    (x <<< k) &&& (y <<< k) = (x &&& y) <<< k := by
  apply Nat.eq_of_testBit_eq
  intro i
  simp only [Nat.testBit_and, Nat.testBit_shiftLeft]
  by_cases h : k ≤ i <;> simp [h, ge_iff_le]

/-- A value below `2^n` ored with a value shifted left by `n` is their sum:
the bit ranges are disjoint. -/
theorem lor_shiftLeft_eq_add (x y n : Nat) (hx : x < 2 ^ n) :
    x ||| y <<< n = y * 2 ^ n + x := by
  have hdiv : (x ||| y <<< n) >>> n = y := by
    rw [lor_shiftRight_distrib, Nat.shiftRight_eq_div_pow,
      Nat.div_eq_of_lt hx, Nat.shiftLeft_eq, Nat.shiftRight_eq_div_pow,
      Nat.mul_div_cancel _ (Nat.pos_pow_of_pos n (by norm_num)), Nat.zero_or]
  have hmod : (x ||| y <<< n) % 2 ^ n = x := by
    rw [← Nat.and_pow_two_sub_one_eq_mod, Nat.and_distrib_right,
      Nat.and_pow_two_sub_one_eq_mod, Nat.and_pow_two_sub_one_eq_mod,
      Nat.mod_eq_of_lt hx, Nat.shiftLeft_eq, Nat.mul_mod_left, Nat.or_zero]
  have hsplit := Nat.div_add_mod (x ||| y <<< n) (2 ^ n)
  rw [hmod] at hsplit
  rw [Nat.shiftRight_eq_div_pow] at hdiv
  rw [hdiv] at hsplit
  rw [← hsplit]
  ring

end BitwiseBridges

section AccessorBridges

/-- The id field is the header value's bits 31-24:
`blob_id` equals division by `2^24` followed by reduction mod `2^8`
(for headers below `2^32`, this is just the top byte). -/
theorem blob_id_eq (attr : BlobAttr) :
    blob_id attr = attr.id_len / 2 ^ 24 % 2 ^ 8 := by
  have hm : (0xff000000 : Nat) >>> 24 = 2 ^ 8 - 1 := by decide
  rw [blob_id, and_shiftRight_distrib, hm, Nat.and_pow_two_sub_one_eq_mod,
    Nat.shiftRight_eq_div_pow]

/-- The id field occupies one byte. -/
theorem blob_id_lt (attr : BlobAttr) : blob_id attr < 2 ^ 8 := by
  rw [blob_id_eq]
  exact Nat.mod_lt _ (by norm_num)

/-- `blob_len` in arithmetic form: the stored length field minus 4,
computed modulo `2^32`. -/
theorem blob_len_eq (attr : BlobAttr) :
    blob_len attr = (attr.id_len % 2 ^ 24 + (2 ^ 32 - 4)) % 2 ^ 32 := by
  have hm : (0x00ffffff : Nat) = 2 ^ 24 - 1 := by norm_num
  rw [blob_len, hm, Nat.and_pow_two_sub_one_eq_mod]
  rfl

/-- `blob_raw_len` recovers the stored length field exactly, for every
header value: adding the header size back cancels any unsigned underflow
of `blob_len` modulo `2^32`. -/
theorem blob_raw_len_eq (attr : BlobAttr) :
    blob_raw_len attr = attr.id_len % 2 ^ 24 := by
  rw [blob_raw_len, blob_len_eq, sizeof_blob_attr]
  have h : attr.id_len % 2 ^ 24 < 2 ^ 24 := Nat.mod_lt _ (by norm_num)
  omega

/-- Masking with `0xfffffffc` clears the two low bits, i.e. rounds a value
below `2^32` down to a multiple of 4. -/
theorem and_fffffffc_eq (x : Nat) (hx : x < 2 ^ 32) :
    x &&& 0xfffffffc = x / 4 * 4 := by
  have hmod : (x &&& 0xfffffffc) % 2 ^ 2 = 0 := by
    have h3 : (0xfffffffc : Nat) &&& (2 ^ 2 - 1) = 0 := by decide
    rw [← Nat.and_pow_two_sub_one_eq_mod, Nat.and_assoc, h3, Nat.and_zero]
  have hdiv : (x &&& 0xfffffffc) >>> 2 = (x >>> 2) % 2 ^ 30 := by
    rw [and_shiftRight_distrib]
    have hm : (0xfffffffc : Nat) >>> 2 = 2 ^ 30 - 1 := by decide
    rw [hm, Nat.and_pow_two_sub_one_eq_mod]
  rw [Nat.shiftRight_eq_div_pow, Nat.shiftRight_eq_div_pow] at hdiv
  have hx4 : x / 2 ^ 2 < 2 ^ 30 := by omega
  rw [Nat.mod_eq_of_lt hx4] at hdiv
  have hsplit := Nat.div_add_mod (x &&& 0xfffffffc) (2 ^ 2)
  rw [hmod, hdiv] at hsplit
  omega

/-- `blob_pad_len` in arithmetic form: the raw length rounded up to the next
multiple of 4. -/
theorem blob_pad_len_eq (attr : BlobAttr) :
    blob_pad_len attr = (blob_raw_len attr + 3) / 4 * 4 := by
  have hraw : blob_raw_len attr < 2 ^ 24 := by
    rw [blob_raw_len_eq]; exact Nat.mod_lt _ (by norm_num)
  rw [blob_pad_len, and_fffffffc_eq _ (by omega)]

/-- The header value written by `blob_set_raw_len` in arithmetic form:
the preserved id byte above the new 24-bit length field. -/
theorem blob_set_raw_len_id_len (attr : BlobAttr) (len : Nat) :
    (blob_set_raw_len attr len).id_len = blob_id attr * 2 ^ 24 + len % 2 ^ 24 := by
  have hmask : len &&& 0x00ffffff = len % 2 ^ 24 := by
    have hm : (0x00ffffff : Nat) = 2 ^ 24 - 1 := by norm_num
    rw [hm, Nat.and_pow_two_sub_one_eq_mod]
  have hid : (blob_id attr <<< 24) &&& 0xff000000 = blob_id attr <<< 24 := by
    have hm : (0xff000000 : Nat) = (2 ^ 8 - 1) <<< 24 := by decide
    rw [hm, shiftLeft_and_shiftLeft, Nat.and_pow_two_sub_one_eq_mod,
      Nat.mod_eq_of_lt (blob_id_lt attr)]
  rw [blob_set_raw_len]
  simp only [hmask, hid]
  exact lor_shiftLeft_eq_add _ _ _ (Nat.mod_lt _ (by norm_num))

end AccessorBridges

/-- One byte of a modelled memory region: byte `i` of the region, reading 0
out of range (the C code only dereferences in-range addresses in the claims
proved below; the guard theorems hold for every byte content, so the default
value never matters). -/
def byteAt (bytes : List Nat) (i : Nat) : Nat := bytes.getD i 0

/-- The 4 bytes at offset `pos` read as a big-endian `uint32`: the value of
`be32_to_cpu(attr->id_len)` for an attribute located at `pos`. -/
def readBE32 (bytes : List Nat) (pos : Nat) : Nat :=
  byteAt bytes pos * 2 ^ 24 + byteAt bytes (pos + 1) * 2 ^ 16 +
    byteAt bytes (pos + 2) * 2 ^ 8 + byteAt bytes (pos + 3)

/-- The attribute whose header starts at byte offset `pos` of a memory
region: the decoded header plus the bytes following the header. -/
def attrAt (bytes : List Nat) (pos : Nat) : BlobAttr :=
  ⟨readBE32 bytes pos, bytes.drop (pos + 4)⟩

/-- blob.h:211-215, `blob_next`: the address (here: byte offset) of the next
attribute, `(char *)attr + blob_pad_len(attr)`. -/
def blob_next (bytes : List Nat) (pos : Nat) : Nat :=
  pos + blob_pad_len (attrAt bytes pos)

/-- blob.h:257-261, `__blob_for_each_attr(pos, attr, rem)`: starting from
offset `pos` with remaining-byte budget `rem`, the loop runs while
`blob_pad_len(pos) <= rem && blob_pad_len(pos) >= sizeof(struct blob_attr)`,
and each iteration executes `rem -= blob_pad_len(pos), pos = blob_next(pos)`.
The function returns the list of offsets the loop body sees (the yielded
`pos` values), in order. -/
def __blob_for_each_attr (bytes : List Nat) (pos rem : Nat) : List Nat :=
  if h : blob_pad_len (attrAt bytes pos) ≤ rem ∧
      sizeof_blob_attr ≤ blob_pad_len (attrAt bytes pos) then
    pos :: __blob_for_each_attr bytes (blob_next bytes pos)
      (rem - blob_pad_len (attrAt bytes pos))
  else []
termination_by rem
decreasing_by
  simp_wf
  simp [sizeof_blob_attr] at h
  omega

/-- blob.h:264-268, `blob_for_each_attr(pos, attr, rem)`: the same loop with
`rem` initialized to `blob_len(attr)` and `pos` to `blob_data(attr)` (the
first payload byte, 4 bytes past the attribute header). -/
def blob_for_each_attr (bytes : List Nat) (attr : Nat) : List Nat :=
  __blob_for_each_attr bytes (attr + 4) (blob_len (attrAt bytes attr))

/-- Big-endian byte image of an integer at width `n` bytes: the memory bytes
produced by storing `cpu_to_beN(v)` (most significant byte first).  Values
wider than `n` bytes are truncated, as the C integer types do. -/
def beBytes : Nat → Nat → List Nat
  | 0, _ => []
  | n + 1, v => v / 2 ^ (8 * n) % 2 ^ 8 :: beBytes n v

/-- blob.h:178-182, `blob_get_int8`: the first payload byte. -/
def blob_get_int8 (attr : BlobAttr) : Nat := byteAt attr.data 0

/-- blob.h:184-189, `blob_get_int16`: `be16_to_cpu` of the 2-byte load from
the payload, i.e. the first two payload bytes read big-endian. -/
def blob_get_int16 (attr : BlobAttr) : Nat :=
  byteAt attr.data 0 * 2 ^ 8 + byteAt attr.data 1

/-- blob.h:191-196, `blob_get_int32`: `be32_to_cpu` of the 4-byte load from
the payload, i.e. the first four payload bytes read big-endian. -/
def blob_get_int32 (attr : BlobAttr) : Nat :=
  byteAt attr.data 0 * 2 ^ 24 + byteAt attr.data 1 * 2 ^ 16 +
    byteAt attr.data 2 * 2 ^ 8 + byteAt attr.data 3

/-- blob.h:198-203, `blob_get_int64`: `be64_to_cpu` of the 8-byte load from
the payload, i.e. the first eight payload bytes read big-endian. -/
def blob_get_int64 (attr : BlobAttr) : Nat :=
  byteAt attr.data 0 * 2 ^ 56 + byteAt attr.data 1 * 2 ^ 48 +
    byteAt attr.data 2 * 2 ^ 40 + byteAt attr.data 3 * 2 ^ 32 +
    byteAt attr.data 4 * 2 ^ 24 + byteAt attr.data 5 * 2 ^ 16 +
    byteAt attr.data 6 * 2 ^ 8 + byteAt attr.data 7

/-- blob.h:205-209, `blob_get_string`: returns `attr->data` as a `char *`;
the C string it denotes is the payload bytes up to the first NUL. -/
def blob_get_string (attr : BlobAttr) : List Nat :=
  attr.data.takeWhile (fun b => b != 0)

/-- Modelled from the spec: the implementation of `blob_put` lives in
`blob.c`, which is not under `src/` (blob.h:221 only declares it).  Per the
spec, `put(tag, bytes)` appends a new attribute whose header carries the tag
in bits 31-24 and total length `header size + payload length` in bits 23-0,
and copies the bytes into the payload region.  Modelled as the attribute the
call appends. -/
def blob_put (id : Nat) (bytes : List Nat) : BlobAttr :=
  ⟨id % 2 ^ 8 * 2 ^ 24 + (sizeof_blob_attr + bytes.length) % 2 ^ 24, bytes⟩

/-- `strlen` over a modelled C string: the number of bytes before the first
NUL. -/
def strlen (s : List Nat) : Nat := (s.takeWhile (fun b => b != 0)).length

/-- blob.h:224-228, `blob_put_string`: `blob_put(buf, id, str, strlen(str) + 1)`;
the copied payload is the first `strlen(str) + 1` bytes at the string
pointer, i.e. the string's bytes including its NUL terminator. -/
def blob_put_string (id : Nat) (str : List Nat) : BlobAttr :=
  blob_put id (str.take (strlen str + 1))

/-- blob.h:230-234, `blob_put_int8`: `blob_put(buf, id, &val, 1)` with
`uint8_t val`; the one payload byte is the value truncated to 8 bits. -/
def blob_put_int8 (id v : Nat) : BlobAttr := blob_put id (beBytes 1 v)

/-- blob.h:236-241, `blob_put_int16`: `val = cpu_to_be16(val);
blob_put(buf, id, &val, 2)`.  On either host byte order the two bytes stored
at `&val` after the conversion are the big-endian image of the value. -/
def blob_put_int16 (id v : Nat) : BlobAttr := blob_put id (beBytes 2 v)

/-- blob.h:243-248, `blob_put_int32`: `val = cpu_to_be32(val);
blob_put(buf, id, &val, 4)`; the four stored bytes are the big-endian image
of the value. -/
def blob_put_int32 (id v : Nat) : BlobAttr := blob_put id (beBytes 4 v)

/-- blob.h:250-255, `blob_put_int64`: `val = cpu_to_be64(val);
blob_put(buf, id, &val, 8)`; the eight stored bytes are the big-endian image
of the value. -/
def blob_put_int64 (id v : Nat) : BlobAttr := blob_put id (beBytes 8 v)

/-- Overwrite the 4 bytes at offset `pos` with the big-endian image of a
32-bit value: the memory effect of `attr->id_len = cpu_to_be32(v)` for an
attribute at offset `pos`. -/
def writeBE32 (bytes : List Nat) (pos v : Nat) : List Nat :=
  bytes.take pos ++ beBytes 4 v ++ bytes.drop (pos + 4)

/-- Modelled from the spec: the implementation of `blob_nest_end` lives in
`blob.c`, which is not under `src/` (blob.h:220 only declares it:
`extern void blob_nest_end(struct blob_buf *buf, void *cookie)`).  Per the
spec, `end_nest(cookie)` recomputes the attribute address at the cookie
offset and sets that header's total length field to `len - cookie` via the
header rewrite of `blob_set_raw_len`; the buffer is the used byte region,
whose length is the buffer's `len`.  The declared return type is `void`, so
the model returns only the updated buffer: there is no error channel. -/
def blob_nest_end (buf : List Nat) (cookie : Nat) : List Nat :=
  writeBE32 buf cookie
    (blob_set_raw_len (attrAt buf cookie) (buf.length - cookie)).id_len

/-- Error kind named by the spec for a stored total length smaller than the
header size. -/
inductive BlobError where
  | MalformedHeader
  deriving DecidableEq

/-- Follows the spec's words, for comparison with the source's `blob_len`:
"`payload_len(attr)` → total length (byte-order corrected) minus header
size.  Fails with `MalformedHeader` if the stored total length is smaller
than the header size." -/
def blob_len_spec (attr : BlobAttr) : Except BlobError Nat :=
  let total := attr.id_len % 2 ^ 24
  if total < sizeof_blob_attr then .error .MalformedHeader
  else .ok (total - sizeof_blob_attr)

section IterationLemmas

/-- The padded lengths of the offsets yielded by the iteration loop sum to
at most the initial remaining-byte budget. -/
theorem iter_padSum_le (bytes : List Nat) :
    ∀ rem pos, ((__blob_for_each_attr bytes pos rem).map
      (fun p => blob_pad_len (attrAt bytes p))).sum ≤ rem := by
  intro rem
  induction rem using Nat.strong_induction_on with
  | _ rem ih =>
    intro pos
    unfold __blob_for_each_attr
    split
    case isTrue h =>
      simp only [sizeof_blob_attr] at h
      have hlt : rem - blob_pad_len (attrAt bytes pos) < rem := by omega
      have hrec := ih _ hlt (blob_next bytes pos)
      rw [List.map_cons, List.sum_cons]
      omega
    case isFalse h =>
      rw [List.map_nil, List.sum_nil]
      exact Nat.zero_le rem

/-- Every offset yielded by the iteration loop passed the loop guard: its
padded length is at least the header size and at most the budget that was
remaining when it was yielded (hence at most the initial budget). -/
theorem iter_mem_bounds (bytes : List Nat) :
    ∀ rem pos p, p ∈ __blob_for_each_attr bytes pos rem →
      sizeof_blob_attr ≤ blob_pad_len (attrAt bytes p) ∧
      blob_pad_len (attrAt bytes p) ≤ rem := by
  intro rem
  induction rem using Nat.strong_induction_on with
  | _ rem ih =>
    intro pos p hp
    unfold __blob_for_each_attr at hp
    split at hp
    case isTrue h =>
      rcases List.mem_cons.mp hp with rfl | hmem
      · exact ⟨h.2, h.1⟩
      · simp only [sizeof_blob_attr] at h
        have hlt : rem - blob_pad_len (attrAt bytes pos) < rem := by omega
        have hrec := ih _ hlt _ _ hmem
        exact ⟨hrec.1, by omega⟩
    case isFalse h => exact absurd hp (List.not_mem_nil p)

/-- The iteration loop yields at most `rem / 4` offsets: each iteration
consumes at least 4 bytes of the budget. -/
theorem iter_length_le (bytes : List Nat) :
    ∀ rem pos, (__blob_for_each_attr bytes pos rem).length ≤ rem / 4 := by
  intro rem
  induction rem using Nat.strong_induction_on with
  | _ rem ih =>
    intro pos
    unfold __blob_for_each_attr
    split
    case isTrue h =>
      simp only [sizeof_blob_attr] at h
      have hlt : rem - blob_pad_len (attrAt bytes pos) < rem := by omega
      have hrec := ih _ hlt (blob_next bytes pos)
      rw [List.length_cons]
      omega
    case isFalse h =>
      rw [List.length_nil]
      exact Nat.zero_le _

/-- A concrete run of the loop: one well-formed empty attribute
(header `00 00 00 04`) inside a budget of 4 bytes yields exactly its
offset. -/
theorem iter_example : __blob_for_each_attr [0, 0, 0, 4] 0 4 = [0] := by
  have h1 : blob_next [0, 0, 0, 4] 0 = 4 := by decide
  have h2 : (4 : Nat) - blob_pad_len (attrAt [0, 0, 0, 4] 0) = 0 := by decide
  rw [__blob_for_each_attr, dif_pos (by decide), h1, h2,
    __blob_for_each_attr, dif_neg (by decide)]

end IterationLemmas

/-- C1: Safe iteration stays within its budget.  For every memory content,
starting offset and remaining-byte budget `rem`, the loop of
`__blob_for_each_attr` yields an offset `p` only when `blob_pad_len(p)` is
at least the header size (4 bytes) and at most the budget; the sum of the
padded lengths of all yielded offsets never exceeds the initial `rem`; and
for `blob_for_each_attr` the same sum is bounded by the container's
`blob_len`.  This holds for arbitrary, including malformed or truncated,
attribute bytes. -/
theorem blob_for_each_attr_budget (bytes : List Nat) (pos rem : Nat) :
    ((__blob_for_each_attr bytes pos rem).map
        (fun p => blob_pad_len (attrAt bytes p))).sum ≤ rem ∧
    (∀ p ∈ __blob_for_each_attr bytes pos rem,
        sizeof_blob_attr ≤ blob_pad_len (attrAt bytes p) ∧
        blob_pad_len (attrAt bytes p) ≤ rem) ∧
    ((blob_for_each_attr bytes pos).map
        (fun p => blob_pad_len (attrAt bytes p))).sum ≤
      blob_len (attrAt bytes pos) := by
  refine ⟨iter_padSum_le bytes rem pos, ?_, iter_padSum_le bytes _ _⟩
  intro p hp
  exact iter_mem_bounds bytes rem pos p hp

/-- Witness for C1: on the concrete buffer `[0, 0, 0, 4]` with budget 4 the
loop yields offset 0, and the theorem instantiated there bounds that
offset's padded length. -/
theorem blob_for_each_attr_budget_witness :
    0 ∈ __blob_for_each_attr [0, 0, 0, 4] 0 4 ∧
    sizeof_blob_attr ≤ blob_pad_len (attrAt [0, 0, 0, 4] 0) ∧
    blob_pad_len (attrAt [0, 0, 0, 4] 0) ≤ 4 := by
  have hmem : 0 ∈ __blob_for_each_attr [0, 0, 0, 4] 0 4 := by
    rw [iter_example]
    exact List.mem_singleton.mpr rfl
  exact ⟨hmem, (blob_for_each_attr_budget [0, 0, 0, 4] 0 4).2.1 0 hmem⟩

/-- C2 counterexample: on the header value 0 (stored total length 0, smaller
than the header size) the source's `blob_len` does not fail: it returns the
ordinary numeric value `2^32 - 4` produced by unsigned underflow, while the
spec's payload-length function rejects the header with `MalformedHeader`. -/
theorem blob_len_malformed_counterexample :
    blob_len ⟨0, []⟩ = 2 ^ 32 - 4 ∧
    blob_len_spec ⟨0, []⟩ = Except.error BlobError.MalformedHeader := by
  constructor
  · decide
  · rfl

/-- C2 amended: `blob_len` never fails.  It returns
`(stored total length - 4) mod 2^32`: when the stored total length is at
least 4 this is the payload length, and agrees with the spec's
`payload_len`; when the stored total length is below 4 it underflows to
`2^32 - 4 + total` where the spec instead demands `MalformedHeader`. -/
theorem blob_len_total (attr : BlobAttr) :
    (4 ≤ attr.id_len % 2 ^ 24 →
        blob_len attr = attr.id_len % 2 ^ 24 - 4 ∧
        blob_len_spec attr = Except.ok (blob_len attr)) ∧
    (attr.id_len % 2 ^ 24 < 4 →
        blob_len attr = 2 ^ 32 - 4 + attr.id_len % 2 ^ 24 ∧
        blob_len_spec attr = Except.error BlobError.MalformedHeader) := by
  have hl := blob_len_eq attr
  have ht : attr.id_len % 2 ^ 24 < 2 ^ 24 := Nat.mod_lt _ (by norm_num)
  constructor
  · intro h
    have h1 : blob_len attr = attr.id_len % 2 ^ 24 - 4 := by omega
    refine ⟨h1, ?_⟩
    simp only [blob_len_spec, sizeof_blob_attr]
    rw [if_neg (by omega), h1]
  · intro h
    have h1 : blob_len attr = 2 ^ 32 - 4 + attr.id_len % 2 ^ 24 := by omega
    refine ⟨h1, ?_⟩
    simp only [blob_len_spec, sizeof_blob_attr]
    rw [if_pos (by omega)]

/-- Witness for the amended C2: the header value 8 has stored total length
8 ≥ 4, and there `blob_len` agrees with the spec's payload length. -/
theorem blob_len_total_witness :
    4 ≤ (BlobAttr.mk 8 []).id_len % 2 ^ 24 ∧
    blob_len_spec ⟨8, []⟩ = Except.ok (blob_len ⟨8, []⟩) :=
  ⟨by decide, ((blob_len_total ⟨8, []⟩).1 (by decide)).2⟩

/-- C3: Length and alignment identities for every attribute whose stored
total length is at least the 4-byte header size: the payload length is the
raw length minus 4, the padded length is the raw length rounded up to the
next multiple of 4, hence lies between the raw length and the raw length
plus 3 and is a multiple of 4. -/
theorem blob_length_alignment (attr : BlobAttr) (h : 4 ≤ blob_raw_len attr) :
    blob_len attr = blob_raw_len attr - 4 ∧
    blob_pad_len attr = (blob_raw_len attr + 3) / 4 * 4 ∧
    blob_raw_len attr ≤ blob_pad_len attr ∧
    blob_pad_len attr ≤ blob_raw_len attr + 3 ∧
    blob_pad_len attr % 4 = 0 := by
  have hr := blob_raw_len_eq attr
  have hl := blob_len_eq attr
  have hp := blob_pad_len_eq attr
  have ht : attr.id_len % 2 ^ 24 < 2 ^ 24 := Nat.mod_lt _ (by norm_num)
  refine ⟨by omega, hp, by omega, by omega, by omega⟩

/-- Witness for C3: the header value 9 (stored total length 9) satisfies the
hypothesis and the identities give payload length 5 and padded length 12. -/
theorem blob_length_alignment_witness :
    4 ≤ blob_raw_len ⟨9, []⟩ ∧
    blob_len ⟨9, []⟩ = blob_raw_len ⟨9, []⟩ - 4 ∧
    blob_pad_len ⟨9, []⟩ % 4 = 0 := by
  have h := blob_length_alignment ⟨9, []⟩ (by decide)
  exact ⟨by decide, h.1, h.2.2.2.2⟩

/-- C4: Header bit layout.  For every header value below `2^32`, `blob_id`
is exactly bits 31-24 (the value divided by `2^24`), always below 256, and
the total length used by `blob_len` / `blob_raw_len` is exactly bits 23-0
(the value modulo `2^24`); decomposing a header into a top byte `hi` and low
24 bits `lo` shows the two fields are decoded independently of one
another. -/
theorem blob_header_bit_layout :
    (∀ attr : BlobAttr, attr.id_len < 2 ^ 32 →
        blob_id attr = attr.id_len / 2 ^ 24 ∧
        blob_raw_len attr = attr.id_len % 2 ^ 24 ∧
        blob_len attr = (attr.id_len % 2 ^ 24 + (2 ^ 32 - 4)) % 2 ^ 32) ∧
    (∀ attr : BlobAttr, blob_id attr < 2 ^ 8) ∧
    (∀ (hi lo : Nat) (d : List Nat), hi < 2 ^ 8 → lo < 2 ^ 24 →
        blob_id ⟨hi * 2 ^ 24 + lo, d⟩ = hi ∧
        blob_raw_len ⟨hi * 2 ^ 24 + lo, d⟩ = lo) := by
  refine ⟨?_, blob_id_lt, ?_⟩
  · intro attr hlt
    refine ⟨?_, blob_raw_len_eq attr, blob_len_eq attr⟩
    rw [blob_id_eq]
    omega
  · intro hi lo d hhi hlo
    constructor
    · rw [blob_id_eq]
      show (hi * 2 ^ 24 + lo) / 2 ^ 24 % 2 ^ 8 = hi
      omega
    · rw [blob_raw_len_eq]
      show (hi * 2 ^ 24 + lo) % 2 ^ 24 = lo
      omega

/-- Witness for C4: the header `0xAB000010` decodes to id `0xAB` and raw
length 16, and the independent decomposition at `hi = 0xAB`, `lo = 16`
yields the same fields. -/
theorem blob_header_bit_layout_witness :
    (BlobAttr.mk 0xAB000010 []).id_len < 2 ^ 32 ∧
    blob_id ⟨0xAB000010, []⟩ = 0xAB000010 / 2 ^ 24 ∧
    blob_id ⟨0xAB * 2 ^ 24 + 16, []⟩ = 0xAB ∧
    blob_raw_len ⟨0xAB * 2 ^ 24 + 16, []⟩ = 16 := by
  have h1 := (blob_header_bit_layout.1 ⟨0xAB000010, []⟩ (by decide)).1
  have h2 := blob_header_bit_layout.2.2 0xAB 16 [] (by decide) (by decide)
  exact ⟨by decide, h1, h2.1, h2.2⟩

/-- C9: For every attribute, `blob_raw_len` returns exactly the stored
total-length field (the low 24 bits of the header), well-formed or not,
because adding the header size back cancels the unsigned underflow modulo
`2^32`; and when the stored total length `t` is below 4, `blob_len` returns
`(t - 4) mod 2^32 = 2^32 - 4 + t`, a value of at least `2^32 - 4`, instead
of an error. -/
theorem blob_len_underflow :
    (∀ attr : BlobAttr, blob_raw_len attr = attr.id_len % 2 ^ 24) ∧
    (∀ attr : BlobAttr, attr.id_len % 2 ^ 24 < 4 →
        blob_len attr = 2 ^ 32 - 4 + attr.id_len % 2 ^ 24 ∧
        2 ^ 32 - 4 ≤ blob_len attr) := by
  refine ⟨blob_raw_len_eq, ?_⟩
  intro attr h
  have hl := blob_len_eq attr
  constructor <;> omega

/-- Witness for C9: the header value 3 (stored total length 3 < 4) makes
`blob_len` underflow to `2^32 - 1` while `blob_raw_len` still returns 3. -/
theorem blob_len_underflow_witness :
    (BlobAttr.mk 3 []).id_len % 2 ^ 24 < 4 ∧
    blob_len ⟨3, []⟩ = 2 ^ 32 - 4 + (BlobAttr.mk 3 []).id_len % 2 ^ 24 ∧
    blob_raw_len ⟨3, []⟩ = 3 := by
  refine ⟨by decide, (blob_len_underflow.2 ⟨3, []⟩ (by decide)).1, ?_⟩
  rw [blob_len_underflow.1 ⟨3, []⟩]
  decide

/-- C10: `blob_set_raw_len` leaves the attribute's type tag unchanged,
stores exactly the low 24 bits of the requested length (so `blob_raw_len`
afterwards returns `len mod 2^24`), and modifies nothing outside the 4-byte
header: the payload bytes are untouched. -/
theorem blob_set_raw_len_frame (attr : BlobAttr) (len : Nat) :
    blob_id (blob_set_raw_len attr len) = blob_id attr ∧
    blob_raw_len (blob_set_raw_len attr len) = len % 2 ^ 24 ∧
    (blob_set_raw_len attr len).data = attr.data := by
  have hv := blob_set_raw_len_id_len attr len
  have hid : blob_id attr < 2 ^ 8 := blob_id_lt attr
  have hlen : len % 2 ^ 24 < 2 ^ 24 := Nat.mod_lt _ (by norm_num)
  refine ⟨?_, ?_, rfl⟩
  · rw [blob_id_eq, hv]
    omega
  · rw [blob_raw_len_eq, hv]
    omega

section EncodingLemmas

/-- The 1-byte big-endian image, elementwise. -/
theorem beBytes1_eq (v : Nat) : beBytes 1 v = [v % 2 ^ 8] := by
  show v / 2 ^ (8 * 0) % 2 ^ 8 :: [] = _
  norm_num

/-- The 2-byte big-endian image, elementwise. -/
theorem beBytes2_eq (v : Nat) :
    beBytes 2 v = [v / 2 ^ 8 % 2 ^ 8, v % 2 ^ 8] := by
  show v / 2 ^ (8 * 1) % 2 ^ 8 :: v / 2 ^ (8 * 0) % 2 ^ 8 :: [] = _
  norm_num

/-- The 4-byte big-endian image, elementwise. -/
theorem beBytes4_eq (v : Nat) :
    beBytes 4 v =
      [v / 2 ^ 24 % 2 ^ 8, v / 2 ^ 16 % 2 ^ 8, v / 2 ^ 8 % 2 ^ 8, v % 2 ^ 8] := by
  show v / 2 ^ (8 * 3) % 2 ^ 8 :: v / 2 ^ (8 * 2) % 2 ^ 8 ::
    v / 2 ^ (8 * 1) % 2 ^ 8 :: v / 2 ^ (8 * 0) % 2 ^ 8 :: [] = _
  norm_num

/-- The 8-byte big-endian image, elementwise. -/
theorem beBytes8_eq (v : Nat) :
    beBytes 8 v =
      [v / 2 ^ 56 % 2 ^ 8, v / 2 ^ 48 % 2 ^ 8, v / 2 ^ 40 % 2 ^ 8,
        v / 2 ^ 32 % 2 ^ 8, v / 2 ^ 24 % 2 ^ 8, v / 2 ^ 16 % 2 ^ 8,
        v / 2 ^ 8 % 2 ^ 8, v % 2 ^ 8] := by
  show v / 2 ^ (8 * 7) % 2 ^ 8 :: v / 2 ^ (8 * 6) % 2 ^ 8 ::
    v / 2 ^ (8 * 5) % 2 ^ 8 :: v / 2 ^ (8 * 4) % 2 ^ 8 ::
    v / 2 ^ (8 * 3) % 2 ^ 8 :: v / 2 ^ (8 * 2) % 2 ^ 8 ::
    v / 2 ^ (8 * 1) % 2 ^ 8 :: v / 2 ^ (8 * 0) % 2 ^ 8 :: [] = _
  norm_num

end EncodingLemmas

/-- C5: Integer round-trip.  For every width w in {8, 16, 32, 64} and every
unsigned w-bit value v, the payload prepared by `blob_put_int{w}` is the
big-endian encoding of v at its natural width (w/8 bytes, most significant
first), and `blob_get_int{w}` applied to an attribute holding that payload
returns exactly v. -/
theorem blob_put_get_int_roundtrip (id : Nat) :
    (∀ v : Nat, v < 2 ^ 8 →
        (blob_put_int8 id v).data = [v] ∧
        blob_get_int8 (blob_put_int8 id v) = v) ∧
    (∀ v : Nat, v < 2 ^ 16 →
        (blob_put_int16 id v).data = [v / 2 ^ 8, v % 2 ^ 8] ∧
        blob_get_int16 (blob_put_int16 id v) = v) ∧
    (∀ v : Nat, v < 2 ^ 32 →
        (blob_put_int32 id v).data =
          [v / 2 ^ 24, v / 2 ^ 16 % 2 ^ 8, v / 2 ^ 8 % 2 ^ 8, v % 2 ^ 8] ∧
        blob_get_int32 (blob_put_int32 id v) = v) ∧
    (∀ v : Nat, v < 2 ^ 64 →
        (blob_put_int64 id v).data =
          [v / 2 ^ 56, v / 2 ^ 48 % 2 ^ 8, v / 2 ^ 40 % 2 ^ 8,
            v / 2 ^ 32 % 2 ^ 8, v / 2 ^ 24 % 2 ^ 8, v / 2 ^ 16 % 2 ^ 8,
            v / 2 ^ 8 % 2 ^ 8, v % 2 ^ 8] ∧
        blob_get_int64 (blob_put_int64 id v) = v) := by
  refine ⟨?_, ?_, ?_, ?_⟩ <;> intro v hv <;> constructor
  · show beBytes 1 v = [v]
    rw [beBytes1_eq, Nat.mod_eq_of_lt hv]
  · show byteAt (beBytes 1 v) 0 = v
    rw [beBytes1_eq]
    show v % 2 ^ 8 = v
    exact Nat.mod_eq_of_lt hv
  · show beBytes 2 v = [v / 2 ^ 8, v % 2 ^ 8]
    rw [beBytes2_eq, Nat.mod_eq_of_lt (show v / 2 ^ 8 < 2 ^ 8 by omega)]
  · show byteAt (beBytes 2 v) 0 * 2 ^ 8 + byteAt (beBytes 2 v) 1 = v
    rw [beBytes2_eq]
    show v / 2 ^ 8 % 2 ^ 8 * 2 ^ 8 + v % 2 ^ 8 = v
    omega
  · show beBytes 4 v = _
    rw [beBytes4_eq, Nat.mod_eq_of_lt (show v / 2 ^ 24 < 2 ^ 8 by omega)]
  · show byteAt (beBytes 4 v) 0 * 2 ^ 24 + byteAt (beBytes 4 v) 1 * 2 ^ 16 +
      byteAt (beBytes 4 v) 2 * 2 ^ 8 + byteAt (beBytes 4 v) 3 = v
    rw [beBytes4_eq]
    show v / 2 ^ 24 % 2 ^ 8 * 2 ^ 24 + v / 2 ^ 16 % 2 ^ 8 * 2 ^ 16 +
      v / 2 ^ 8 % 2 ^ 8 * 2 ^ 8 + v % 2 ^ 8 = v
    omega
  · show beBytes 8 v = _
    rw [beBytes8_eq, Nat.mod_eq_of_lt (show v / 2 ^ 56 < 2 ^ 8 by omega)]
  · show byteAt (beBytes 8 v) 0 * 2 ^ 56 + byteAt (beBytes 8 v) 1 * 2 ^ 48 +
      byteAt (beBytes 8 v) 2 * 2 ^ 40 + byteAt (beBytes 8 v) 3 * 2 ^ 32 +
      byteAt (beBytes 8 v) 4 * 2 ^ 24 + byteAt (beBytes 8 v) 5 * 2 ^ 16 +
      byteAt (beBytes 8 v) 6 * 2 ^ 8 + byteAt (beBytes 8 v) 7 = v
    rw [beBytes8_eq]
    show v / 2 ^ 56 % 2 ^ 8 * 2 ^ 56 + v / 2 ^ 48 % 2 ^ 8 * 2 ^ 48 +
      v / 2 ^ 40 % 2 ^ 8 * 2 ^ 40 + v / 2 ^ 32 % 2 ^ 8 * 2 ^ 32 +
      v / 2 ^ 24 % 2 ^ 8 * 2 ^ 24 + v / 2 ^ 16 % 2 ^ 8 * 2 ^ 16 +
      v / 2 ^ 8 % 2 ^ 8 * 2 ^ 8 + v % 2 ^ 8 = v
    omega

/-- Witness for C5: the 32-bit value `0x01020304` is stored as the bytes
`[1, 2, 3, 4]` and read back unchanged. -/
theorem blob_put_get_int_roundtrip_witness :
    (blob_put_int32 6 0x01020304).data = [1, 2, 3, 4] ∧
    blob_get_int32 (blob_put_int32 6 0x01020304) = 0x01020304 := by
  have h := (blob_put_get_int_roundtrip 6).2.2.1 0x01020304 (by decide)
  refine ⟨?_, h.2⟩
  rw [h.1]
  decide

/-- A NUL-free prefix is what `takeWhile` recovers in front of a NUL. -/
theorem takeWhile_append_nul (s t : List Nat) (h : ∀ b ∈ s, b ≠ 0) :
    (s ++ 0 :: t).takeWhile (fun b => b != 0) = s := by
  induction s with
  | nil => simp
  | cons a as ihs =>
    have ha : (a != 0) = true := by
      simpa using h a (List.mem_cons_self a as)
    simp only [List.cons_append, List.takeWhile_cons, ha, if_true]
    rw [ihs (fun b hb => h b (List.mem_cons_of_mem a hb))]

/-- C6: String round-trip.  For every NUL-free byte string `s` (with the
attribute's total length within the 24-bit length field), `blob_put_string`
on the NUL-terminated memory image `s ++ [0]` stores a payload of exactly
`strlen + 1` bytes — the NUL terminator is included in and counted toward
the payload length — and `blob_get_string` on the resulting attribute
denotes a NUL-terminated string equal to `s`. -/
theorem blob_put_get_string_roundtrip (id : Nat) (s : List Nat)
    (hnul : ∀ b ∈ s, b ≠ 0) (hlen : s.length + 5 < 2 ^ 24) :
    (blob_put_string id (s ++ [0])).data = s ++ [0] ∧
    (blob_put_string id (s ++ [0])).data.length = strlen (s ++ [0]) + 1 ∧
    blob_len (blob_put_string id (s ++ [0])) = s.length + 1 ∧
    blob_get_string (blob_put_string id (s ++ [0])) = s := by
  have hlen1 : (s ++ [0]).length = s.length + 1 := by simp
  have hstr : strlen (s ++ [0]) = s.length := by
    unfold strlen
    rw [takeWhile_append_nul s [] hnul]
  have hpay : (s ++ [0]).take (strlen (s ++ [0]) + 1) = s ++ [0] := by
    rw [hstr, ← hlen1, List.take_length]
  have hdata : (blob_put_string id (s ++ [0])).data = s ++ [0] := hpay
  refine ⟨hdata, by rw [hdata, hlen1, hstr], ?_, ?_⟩
  · have hl := blob_len_eq (blob_put_string id (s ++ [0]))
    have hid : (blob_put_string id (s ++ [0])).id_len =
        id % 2 ^ 8 * 2 ^ 24 + (4 + (s.length + 1)) % 2 ^ 24 := by
      simp only [blob_put_string, blob_put, sizeof_blob_attr]
      rw [hpay, hlen1]
    rw [hl, hid]
    have hm : id % 2 ^ 8 < 2 ^ 8 := Nat.mod_lt _ (by norm_num)
    omega
  · show (blob_put_string id (s ++ [0])).data.takeWhile (fun b => b != 0) = s
    rw [hdata]
    exact takeWhile_append_nul s [] hnul

/-- Witness for C6: the two-byte string `"hi"` (bytes 104, 105) is stored
with its NUL, its payload length is 3, and it reads back as `"hi"`. -/
theorem blob_put_get_string_roundtrip_witness :
    blob_len (blob_put_string 3 ([104, 105] ++ [0])) = 3 ∧
    blob_get_string (blob_put_string 3 ([104, 105] ++ [0])) = [104, 105] := by
  have h := blob_put_get_string_roundtrip 3 [104, 105] (by decide) (by decide)
  exact ⟨h.2.2.1, h.2.2.2⟩

section WriteLemmas

/-- `beBytes` produces exactly `n` bytes. -/
theorem beBytes_length (n : Nat) : ∀ v, (beBytes n v).length = n := by
  induction n with
  | zero => intro v; rfl
  | succ n ih =>
    intro v
    show (beBytes n v).length + 1 = n + 1
    rw [ih v]

/-- Writing 4 bytes inside the buffer preserves its length. -/
theorem writeBE32_length (bytes : List Nat) (pos v : Nat)
    (h : pos + 4 ≤ bytes.length) :
    (writeBE32 bytes pos v).length = bytes.length := by
  unfold writeBE32
  rw [List.length_append, List.length_append, beBytes_length,
    List.length_take, List.length_drop]
  omega

/-- A byte inside the 4-byte window written by `writeBE32` is the
corresponding byte of the big-endian image. -/
theorem byteAt_writeBE32 (bytes : List Nat) (pos v j : Nat) (hj : j < 4)
    (h : pos + 4 ≤ bytes.length) :
    byteAt (writeBE32 bytes pos v) (pos + j) = byteAt (beBytes 4 v) j := by
  unfold writeBE32 byteAt
  have htl : (bytes.take pos).length = pos := by
    rw [List.length_take]; omega
  rw [List.append_assoc,
    List.getD_append_right _ _ _ _ (by rw [htl]; omega), htl,
    show pos + j - pos = j by omega,
    List.getD_append _ _ _ _ (by rw [beBytes_length]; omega)]

/-- Reading back the 4 bytes written by `writeBE32` recovers the written
32-bit value. -/
theorem readBE32_writeBE32 (bytes : List Nat) (pos v : Nat) (hv : v < 2 ^ 32)
    (h : pos + 4 ≤ bytes.length) :
    readBE32 (writeBE32 bytes pos v) pos = v := by
  have h0 := byteAt_writeBE32 bytes pos v 0 (by omega) h
  have h1 := byteAt_writeBE32 bytes pos v 1 (by omega) h
  have h2 := byteAt_writeBE32 bytes pos v 2 (by omega) h
  have h3 := byteAt_writeBE32 bytes pos v 3 (by omega) h
  rw [show pos + 0 = pos from by omega] at h0
  unfold readBE32
  rw [h0, h1, h2, h3, beBytes4_eq]
  show v / 2 ^ 24 % 2 ^ 8 * 2 ^ 24 + v / 2 ^ 16 % 2 ^ 8 * 2 ^ 16 +
    v / 2 ^ 8 % 2 ^ 8 * 2 ^ 8 + v % 2 ^ 8 = v
  omega

/-- Two `writeBE32` calls at the same offset collapse to the second one. -/
theorem writeBE32_writeBE32 (bytes : List Nat) (pos v w : Nat)
    (h : pos + 4 ≤ bytes.length) :
    writeBE32 (writeBE32 bytes pos v) pos w = writeBE32 bytes pos w := by
  unfold writeBE32
  have htl : (bytes.take pos).length = pos := by
    rw [List.length_take]; omega
  have hab : (bytes.take pos ++ beBytes 4 v).length = pos + 4 := by
    rw [List.length_append, htl, beBytes_length]
  have e1 : (bytes.take pos ++ beBytes 4 v ++ bytes.drop (pos + 4)).take pos =
      bytes.take pos := by
    rw [List.append_assoc, List.take_append_of_le_length htl.ge,
      List.take_take, Nat.min_self]
  have e2 : (bytes.take pos ++ beBytes 4 v ++ bytes.drop (pos + 4)).drop (pos + 4) =
      bytes.drop (pos + 4) := by
    rw [← hab, List.drop_left]
  rw [e1, e2]

/-- The header value written by `blob_set_raw_len` always fits in 32 bits. -/
theorem blob_set_raw_len_id_len_lt (attr : BlobAttr) (len : Nat) :
    (blob_set_raw_len attr len).id_len < 2 ^ 32 := by
  rw [blob_set_raw_len_id_len]
  have h1 := blob_id_lt attr
  have h2 : len % 2 ^ 24 < 2 ^ 24 := Nat.mod_lt _ (by norm_num)
  omega

end WriteLemmas

/-- C7 counterexample: a concrete double close.  The buffer holds a root
container (offset 0), a nested container opened at cookie offset 4, and the
nested content; after `blob_nest_end` has already closed cookie 4, calling
`blob_nest_end` again with the same (now closed) cookie completes and
returns the same ordinary buffer — the same header bytes are rewritten — so
the misuse is not surfaced as any result or error value. -/
theorem blob_nest_end_double_close :
    blob_nest_end (blob_nest_end [0, 0, 0, 12, 1, 0, 0, 4, 4, 0, 0, 8] 4) 4 =
      blob_nest_end [0, 0, 0, 12, 1, 0, 0, 4, 4, 0, 0, 8] 4 ∧
    blob_nest_end [0, 0, 0, 12, 1, 0, 0, 4, 4, 0, 0, 8] 4 =
      [0, 0, 0, 12, 1, 0, 0, 8, 4, 0, 0, 8] := by
  constructor
  · decide
  · decide

/-- C7 amended: `blob_nest_end` is declared to return `void`, so it has no
result or error value to surface cookie misuse with, and it performs no
cookie-state tracking: for any in-bounds cookie, closing it a second time
(with no intervening appends) silently completes and leaves the buffer
exactly as the first close did, and the buffer length never changes.
Cookie misuse is a documented usage contract, not a detected error. -/
theorem blob_nest_end_void (buf : List Nat) (cookie : Nat)
    (h : cookie + 4 ≤ buf.length) :
    blob_nest_end (blob_nest_end buf cookie) cookie = blob_nest_end buf cookie ∧
    (blob_nest_end buf cookie).length = buf.length := by
  have hidlt := blob_id_lt (attrAt buf cookie)
  have hmod : (buf.length - cookie) % 2 ^ 24 < 2 ^ 24 := Nat.mod_lt _ (by norm_num)
  have hv1 := blob_set_raw_len_id_len (attrAt buf cookie) (buf.length - cookie)
  have hv1lt := blob_set_raw_len_id_len_lt (attrAt buf cookie) (buf.length - cookie)
  have hlen : (blob_nest_end buf cookie).length = buf.length :=
    writeBE32_length buf cookie _ h
  refine ⟨?_, hlen⟩
  have hread : readBE32 (blob_nest_end buf cookie) cookie =
      (blob_set_raw_len (attrAt buf cookie) (buf.length - cookie)).id_len :=
    readBE32_writeBE32 buf cookie _ hv1lt h
  have hid2 : (attrAt (blob_nest_end buf cookie) cookie).id_len =
      (blob_set_raw_len (attrAt buf cookie) (buf.length - cookie)).id_len := hread
  have hv2 : (blob_set_raw_len (attrAt (blob_nest_end buf cookie) cookie)
        ((blob_nest_end buf cookie).length - cookie)).id_len =
      (blob_set_raw_len (attrAt buf cookie) (buf.length - cookie)).id_len := by
    rw [blob_set_raw_len_id_len, hlen, blob_id_eq, hid2, hv1]
    omega
  have step1 : blob_nest_end (blob_nest_end buf cookie) cookie =
      writeBE32 (blob_nest_end buf cookie) cookie
        (blob_set_raw_len (attrAt (blob_nest_end buf cookie) cookie)
          ((blob_nest_end buf cookie).length - cookie)).id_len := rfl
  rw [step1, hv2]
  have step2 : blob_nest_end buf cookie = writeBE32 buf cookie
      (blob_set_raw_len (attrAt buf cookie) (buf.length - cookie)).id_len := rfl
  rw [step2]
  exact writeBE32_writeBE32 buf cookie _ _ h

/-- Witness for the amended C7: a concrete 8-byte buffer with an in-bounds
cookie at offset 4, where double close is silently idempotent and the
length is preserved. -/
theorem blob_nest_end_void_witness :
    4 + 4 ≤ ([0, 0, 0, 8, 5, 0, 0, 4] : List Nat).length ∧
    blob_nest_end (blob_nest_end [0, 0, 0, 8, 5, 0, 0, 4] 4) 4 =
      blob_nest_end [0, 0, 0, 8, 5, 0, 0, 4] 4 ∧
    (blob_nest_end [0, 0, 0, 8, 5, 0, 0, 4] 4).length =
      ([0, 0, 0, 8, 5, 0, 0, 4] : List Nat).length := by
  have h := blob_nest_end_void [0, 0, 0, 8, 5, 0, 0, 4] 4 (by decide)
  exact ⟨by decide, h.1, h.2⟩

/-- C8: The iteration loop terminates for every starting offset and finite
budget (it is a total function of the budget), every yielded offset has a
padded length of at least 4 bytes, and at most `rem / 4` offsets are
yielded: the budget strictly decreases by at least 4 per step. -/
theorem blob_for_each_attr_count (bytes : List Nat) (pos rem : Nat) :
    (∀ p ∈ __blob_for_each_attr bytes pos rem,
        sizeof_blob_attr ≤ blob_pad_len (attrAt bytes p)) ∧
    (__blob_for_each_attr bytes pos rem).length ≤ rem / 4 := by
  refine ⟨?_, iter_length_le bytes rem pos⟩
  intro p hp
  exact (iter_mem_bounds bytes rem pos p hp).1

/-- Witness for C8: on the concrete buffer `[0, 0, 0, 4]` with budget 4 the
loop yields offset 0, whose padded length is at least 4, and the count bound
evaluates to `1 ≤ 4 / 4`. -/
theorem blob_for_each_attr_count_witness :
    0 ∈ __blob_for_each_attr [0, 0, 0, 4] 0 4 ∧
    sizeof_blob_attr ≤ blob_pad_len (attrAt [0, 0, 0, 4] 0) ∧
    (__blob_for_each_attr [0, 0, 0, 4] 0 4).length ≤ 4 / 4 := by
  have hmem : 0 ∈ __blob_for_each_attr [0, 0, 0, 4] 0 4 := by
    rw [iter_example]
    exact List.mem_singleton.mpr rfl
  have h := blob_for_each_attr_count [0, 0, 0, 4] 0 4
  exact ⟨hmem, h.1 0 hmem, h.2⟩
